import Mathlib

/-!
Verification of the session/token lifecycle and the rate-limited AI search
proxy of the rebook backend (a book-sharing social application).

The embedding is shallow: each TypeScript function of the core is translated
into an executable Lean definition over explicit state, and the claims of the
specification are settled as theorems about those definitions.

Conventions of the embedding:
- Time is a natural number of seconds for the JWT subsystem (the `iat` and
  `exp` claims of a JSON Web Token are counted in seconds) and a natural
  number of milliseconds for the rate limiter (which uses Date.now()).
- jwt.sign with the HS256 default is deterministic: for a fixed secret the
  serialized token string is a function of the payload, and the payload here
  is exactly (userId, iat, exp) with exp = iat + lifetime. Two tokens minted
  for the same user in the same second are therefore byte-identical strings.
  A signed token is hence modelled by its payload (userId, iat), and
  byte-equality of token strings is equality of payloads.
- The Mongo user collection is modelled as a function from user ids to an
  optional user record; only the fields the core reads are kept.
-/

namespace ReBook

/-- Lifetime of an access token in seconds (ACCESS_TOKEN_EXPIRY default 15m). -/
def accessTokenExpirySec : Nat := 15 * 60

/-- Lifetime of a refresh token in seconds (REFRESH_TOKEN_EXPIRY default 7d). -/
def refreshTokenExpirySec : Nat := 7 * 24 * 60 * 60

/-- Payload of a token produced by jwt.sign with payload (userId) and a
configured expiresIn: the serialized string is determined by the user id and
the issuance second, so the pair models the token string byte-for-byte. -/
structure Jwt where
  userId : Nat
  iat : Nat
deriving DecidableEq, Repr

/-- Expiry instant of a token with the given lifetime. -/
def Jwt.expAt (life : Nat) (t : Jwt) : Nat := t.iat + life

/-- A token string presented by a client: either a string that is a token
signed with the expected secret, or any other string (wrong signature, wrong
secret, or not a JWT at all), which jwt.verify rejects. -/
inductive Presented where
  | signed (t : Jwt)
  | junk (s : String)
deriving DecidableEq, Repr

/-- Outcome classes of jwt.verify. -/
inductive VerifyErr where
  | malformed
  | expired
deriving DecidableEq, Repr

/-- Model of jwt.verify(token, secret) for a token with the given lifetime:
a non-signed string raises JsonWebTokenError; a signed token raises
TokenExpiredError when the clock timestamp has reached its exp claim;
otherwise the decoded payload is returned. -/
def verifyJwt (life now : Nat) : Presented → Except VerifyErr Jwt
  | .junk _ => .error .malformed
  | .signed t => if t.expAt life ≤ now then .error .expired else .ok t

/-- Model of generateTokens(userId) at clock second now: both jwt.sign calls
use the same payload and issuance second, differing only in secret and
lifetime, so both payloads are (userId, now). First component is the access
token, second the refresh token. -/
def generateTokens (userId now : Nat) : Jwt × Jwt :=
  (⟨userId, now⟩, ⟨userId, now⟩)

/-- The fields of a stored user record that the token lifecycle reads or
writes. The refreshToken field is the stored fingerprint of the currently
valid refresh token (none when logged out / revoked). -/
structure UserRec where
  username : String
  email : String
  refreshToken : Option Jwt
deriving DecidableEq, Repr

/-- The user collection: each user id maps to at most one record. -/
def Store : Type := Nat → Option UserRec

/-- The empty collection. -/
def Store.empty : Store := fun _ => none

/-- Model of overwriting (saving) the record of one user. -/
def Store.save (s : Store) (id : Nat) (u : UserRec) : Store :=
  fun j => if j = id then some u else s j

/-- Outcomes of the refresh endpoint. invalidOrExpired is the 401 response
for a token rejected by jwt.verify; stale is the 401 response produced when
the user is missing or the stored fingerprint differs from the presented
token string. -/
inductive RotateErr where
  | invalidOrExpired
  | stale
deriving DecidableEq, Repr

/-- Model of the refreshToken controller at clock second now: verify the
presented string against the refresh secret, load the user by the embedded
id, require the stored fingerprint to be byte-equal to the presented token,
then mint a new pair and save the new refresh token as the fingerprint
before responding. Returns the response and the updated collection. -/
def refreshToken (now : Nat) (p : Presented) (s : Store) :
    Except RotateErr (Jwt × Jwt) × Store :=
  match verifyJwt refreshTokenExpirySec now p with
  | .error _ => (.error .invalidOrExpired, s)
  | .ok t =>
    match s t.userId with
    | none => (.error .stale, s)
    | some u =>
      if u.refreshToken = some t then
        let pair := generateTokens t.userId now
        (.ok pair, s.save t.userId { u with refreshToken := some pair.2 })
      else
        (.error .stale, s)

/-- Outcomes of the logout endpoint. -/
inductive LogoutOutcome where
  | missingToken
  | invalidToken
  | userNotFound
  | ok
deriving DecidableEq, Repr

/-- Model of the logout controller at clock second now: require a body token,
verify it against the refresh secret (401 Invalid refresh token on failure),
load the user (401 User not found when absent), then clear the stored
fingerprint and save. -/
def logout (now : Nat) (p : Option Presented) (s : Store) :
    LogoutOutcome × Store :=
  match p with
  | none => (.missingToken, s)
  | some tok =>
    match verifyJwt refreshTokenExpirySec now tok with
    | .error _ => (.invalidToken, s)
    | .ok t =>
      match s t.userId with
      | none => (.userNotFound, s)
      | some u => (.ok, s.save t.userId { u with refreshToken := none })

/-- Outcomes of the authenticateToken middleware. -/
inductive AuthOutcome where
  | missingToken
  | expired
  | invalidToken
  | userNotFound
  | ok (userId : Nat) (username email : String)
deriving DecidableEq, Repr

/-- Model of the authenticateToken middleware at clock second now: require a
bearer token, verify it against the access secret (distinguishing the
TokenExpiredError and JsonWebTokenError responses), then load the embedded
user from the collection; reject when the user does not exist, otherwise
attach the principal to the request. -/
def authenticateToken (now : Nat) (p : Option Presented) (s : Store) :
    AuthOutcome :=
  match p with
  | none => .missingToken
  | some tok =>
    match verifyJwt accessTokenExpirySec now tok with
    | .error .expired => .expired
    | .error .malformed => .invalidToken
    | .ok t =>
      match s t.userId with
      | none => .userNotFound
      | some u => .ok t.userId u.username u.email

/-- Per-user window of the fixed-window rate limiter. -/
structure RateRecord where
  count : Nat
  resetAt : Nat
deriving DecidableEq, Repr

/-- The rateLimits map keyed by user id. -/
def RateState : Type := String → Option RateRecord

/-- The initial, empty rateLimits map. -/
def RateState.empty : RateState := fun _ => none

/-- Model of rateLimits.set(userId, record). -/
def RateState.set (s : RateState) (userId : String) (r : RateRecord) :
    RateState :=
  fun k => if k = userId then some r else s k

/-- Ceiling of the rate limiter (RATE_LIMIT). -/
def RATE_LIMIT : Nat := 10

/-- Window length of the rate limiter in milliseconds (RATE_WINDOW_MS). -/
def RATE_WINDOW_MS : Nat := 60 * 1000

/-- Model of checkRateLimit(userId) at clock millisecond now: when no window
exists or now has reached the stored reset time, replace the window with
count 1 and reset now + RATE_WINDOW_MS and admit; otherwise deny without
mutation when the count has reached the ceiling, else increment and admit.
Returns the admission verdict and the updated map. -/
def checkRateLimit (now : Nat) (userId : String) (s : RateState) :
    Bool × RateState :=
  match s userId with
  | none => (true, s.set userId ⟨1, now + RATE_WINDOW_MS⟩)
  | some r =>
    if r.resetAt ≤ now then
      (true, s.set userId ⟨1, now + RATE_WINDOW_MS⟩)
    else if RATE_LIMIT ≤ r.count then
      (false, s)
    else
      (true, s.set userId ⟨r.count + 1, r.resetAt⟩)

/-- State after n further checkRateLimit calls for one user at one clock
millisecond. -/
def iterCheck (now : Nat) (userId : String) : Nat → RateState → RateState
  | 0, s => s
  | n + 1, s => iterCheck now userId n (checkRateLimit now userId s).2

/-- State of the rateLimits map after a sequence of calls, each a pair of a
clock millisecond and a user id, starting from a given state. -/
def runCalls (calls : List (Nat × String)) (s : RateState) : RateState :=
  calls.foldl (fun st c => (checkRateLimit c.1 c.2 st).2) s

theorem RateState.set_same (s : RateState) (userId : String) (r : RateRecord) :
    (s.set userId r) userId = some r := by
  simp [RateState.set]

theorem checkRateLimit_none (now : Nat) (userId : String) (s : RateState)
    (h : s userId = none) :
    checkRateLimit now userId s =
      (true, s.set userId ⟨1, now + RATE_WINDOW_MS⟩) := by
  simp [checkRateLimit, h]

theorem checkRateLimit_reset (now : Nat) (userId : String) (s : RateState)
    (r : RateRecord) (h : s userId = some r) (hr : r.resetAt ≤ now) :
    checkRateLimit now userId s =
      (true, s.set userId ⟨1, now + RATE_WINDOW_MS⟩) := by
  simp [checkRateLimit, h, hr]

theorem checkRateLimit_deny (now : Nat) (userId : String) (s : RateState)
    (r : RateRecord) (h : s userId = some r) (hr : now < r.resetAt)
    (hc : RATE_LIMIT ≤ r.count) :
    checkRateLimit now userId s = (false, s) := by
  simp [checkRateLimit, h, Nat.not_le_of_lt hr, hc]

theorem checkRateLimit_incr (now : Nat) (userId : String) (s : RateState)
    (r : RateRecord) (h : s userId = some r) (hr : now < r.resetAt)
    (hc : r.count < RATE_LIMIT) :
    checkRateLimit now userId s =
      (true, s.set userId ⟨r.count + 1, r.resetAt⟩) := by
  simp [checkRateLimit, h, Nat.not_le_of_lt hr, Nat.not_le_of_lt hc]

theorem iterCheck_window (now : Nat) (userId : String) :
    ∀ (j : Nat) (s : RateState) (c : Nat),
      s userId = some ⟨c, now + RATE_WINDOW_MS⟩ → 1 ≤ c →
      c + j ≤ RATE_LIMIT →
      (iterCheck now userId j s) userId = some ⟨c + j, now + RATE_WINDOW_MS⟩
  | 0, s, c, h, _, _ => by simpa [iterCheck] using h
  | j + 1, s, c, h, hc, hle => by
    have hlt : now < now + RATE_WINDOW_MS := by
      simp [RATE_WINDOW_MS]
    have hcount : c < RATE_LIMIT := by omega
    have hstep := checkRateLimit_incr now userId s _ h hlt hcount
    have : (checkRateLimit now userId s).2 userId =
        some ⟨c + 1, now + RATE_WINDOW_MS⟩ := by
      rw [hstep]
      exact RateState.set_same s userId _
    have ih := iterCheck_window now userId j (checkRateLimit now userId s).2
      (c + 1) this (by omega) (by omega)
    have harith : c + 1 + j = c + (j + 1) := by omega
    rw [iterCheck]
    rw [ih]
    rw [harith]

theorem iterCheck_add (now : Nat) (userId : String) (m : Nat) :
    ∀ (n : Nat) (s : RateState),
      iterCheck now userId (m + n) s =
        iterCheck now userId m (iterCheck now userId n s)
  | 0, s => rfl
  | n + 1, s => by
    have h : m + (n + 1) = (m + n) + 1 := rfl
    rw [h, iterCheck, iterCheck_add now userId m n]
    rfl

theorem iterCheck_fromEmpty (now : Nat) (userId : String) (s : RateState)
    (h0 : s userId = none) (j : Nat) (h1 : 1 ≤ j) (h2 : j ≤ RATE_LIMIT) :
    (iterCheck now userId j s) userId =
      some ⟨j, now + RATE_WINDOW_MS⟩ := by
  obtain ⟨j', rfl⟩ : ∃ j', j = j' + 1 := ⟨j - 1, by omega⟩
  rw [iterCheck]
  have hstep := checkRateLimit_none now userId s h0
  have hset : (checkRateLimit now userId s).2 userId =
      some ⟨1, now + RATE_WINDOW_MS⟩ := by
    rw [hstep]
    exact RateState.set_same s userId _
  have := iterCheck_window now userId j' (checkRateLimit now userId s).2 1
    hset (by omega) (by omega)
  simpa [Nat.add_comm] using this

/-- C3: the rate limiter follows the fixed-window algorithm. The first four
conjuncts characterize every branch of checkRateLimit: window creation or
replacement with count 1 and reset now + window on a missing or elapsed
window, denial without mutation at the ceiling, increment and admission
below it. The last conjunct is the 10-per-60s scenario: for a user with no
prior window, calls 1 through 10 within the window all admit, call 11 is
denied, and a call at or after the stored reset time admits again. -/
theorem checkRateLimit_fixedWindow :
    (∀ now userId s, s userId = none →
      checkRateLimit now userId s =
        (true, s.set userId ⟨1, now + RATE_WINDOW_MS⟩)) ∧
    (∀ now userId s r, s userId = some r → r.resetAt ≤ now →
      checkRateLimit now userId s =
        (true, s.set userId ⟨1, now + RATE_WINDOW_MS⟩)) ∧
    (∀ now userId s r, s userId = some r → now < r.resetAt →
      RATE_LIMIT ≤ r.count → checkRateLimit now userId s = (false, s)) ∧
    (∀ now userId s r, s userId = some r → now < r.resetAt →
      r.count < RATE_LIMIT →
      checkRateLimit now userId s =
        (true, s.set userId ⟨r.count + 1, r.resetAt⟩)) ∧
    (∀ now userId s, s userId = none →
      (∀ j, j < RATE_LIMIT →
        (checkRateLimit now userId (iterCheck now userId j s)).1 = true) ∧
      (checkRateLimit now userId (iterCheck now userId RATE_LIMIT s)).1
        = false ∧
      (∀ t, now + RATE_WINDOW_MS ≤ t →
        (checkRateLimit t userId
          (iterCheck now userId (RATE_LIMIT + 1) s)).1 = true)) := by
  refine ⟨checkRateLimit_none, checkRateLimit_reset, checkRateLimit_deny,
    checkRateLimit_incr, ?_⟩
  intro now userId s h0
  have hlt : now < now + RATE_WINDOW_MS := by simp [RATE_WINDOW_MS]
  refine ⟨?_, ?_, ?_⟩
  · intro j hj
    cases j with
    | zero =>
      rw [iterCheck, checkRateLimit_none now userId s h0]
    | succ j' =>
      have hw := iterCheck_fromEmpty now userId s h0 (j' + 1)
        (by omega) (by omega)
      rw [checkRateLimit_incr now userId _ _ hw hlt
        (by show j' + 1 < RATE_LIMIT; omega)]
  · have hw := iterCheck_fromEmpty now userId s h0 RATE_LIMIT
      (by simp [RATE_LIMIT]) (by omega)
    rw [checkRateLimit_deny now userId _ _ hw hlt
      (by show RATE_LIMIT ≤ RATE_LIMIT; omega)]
  · intro t ht
    have hw := iterCheck_fromEmpty now userId s h0 RATE_LIMIT
      (by simp [RATE_LIMIT]) (by omega)
    have h11 : (iterCheck now userId (RATE_LIMIT + 1) s) userId =
        some ⟨RATE_LIMIT, now + RATE_WINDOW_MS⟩ := by
      have hadd : iterCheck now userId (RATE_LIMIT + 1) s =
          iterCheck now userId 1 (iterCheck now userId RATE_LIMIT s) := by
        have h := iterCheck_add now userId 1 RATE_LIMIT s
        rw [Nat.add_comm 1 RATE_LIMIT] at h
        exact h
      rw [hadd, iterCheck, iterCheck,
        checkRateLimit_deny now userId _ _ hw hlt
          (by show RATE_LIMIT ≤ RATE_LIMIT; omega)]
      exact hw
    rw [checkRateLimit_reset t userId _ _ h11 ht]

/-- A closed instance of the C3 theorem, discharging its hypotheses at a
concrete user and state. -/
theorem checkRateLimit_fixedWindow_witness :
    checkRateLimit 5 "alice" RateState.empty =
      (true, RateState.empty.set "alice" ⟨1, 5 + RATE_WINDOW_MS⟩) ∧
    (checkRateLimit 5 "alice"
      (iterCheck 5 "alice" RATE_LIMIT RateState.empty)).1 = false :=
  ⟨checkRateLimit_fixedWindow.1 5 "alice" RateState.empty rfl,
    (checkRateLimit_fixedWindow.2.2.2.2 5 "alice" RateState.empty rfl).2.1⟩

/-- Bound invariant of the rateLimits map: every stored window has a count
between 1 and the ceiling. -/
def RateInv (s : RateState) : Prop :=
  ∀ userId r, s userId = some r → 1 ≤ r.count ∧ r.count ≤ RATE_LIMIT

theorem rateInv_empty : RateInv RateState.empty := by
  intro userId r h
  simp [RateState.empty] at h

theorem rateInv_step (now : Nat) (userId : String) (s : RateState)
    (h : RateInv s) : RateInv (checkRateLimit now userId s).2 := by
  intro uid r' hr'
  rcases hs : s userId with _ | r
  · rw [checkRateLimit_none now userId s hs] at hr'
    simp only [RateState.set] at hr'
    by_cases huid : uid = userId
    · simp [huid] at hr'
      subst hr'
      simp [RATE_LIMIT]
    · simp [huid] at hr'
      exact h uid r' hr'
  · by_cases hreset : r.resetAt ≤ now
    · rw [checkRateLimit_reset now userId s r hs hreset] at hr'
      simp only [RateState.set] at hr'
      by_cases huid : uid = userId
      · simp [huid] at hr'
        subst hr'
        simp [RATE_LIMIT]
      · simp [huid] at hr'
        exact h uid r' hr'
    · by_cases hceil : RATE_LIMIT ≤ r.count
      · rw [checkRateLimit_deny now userId s r hs (by omega) hceil] at hr'
        exact h uid r' hr'
      · rw [checkRateLimit_incr now userId s r hs (by omega) (by omega)]
          at hr'
        simp only [RateState.set] at hr'
        by_cases huid : uid = userId
        · simp [huid] at hr'
          subst hr'
          simp only
          omega
        · simp [huid] at hr'
          exact h uid r' hr'

theorem rateInv_runCalls :
    ∀ (calls : List (Nat × String)) (s : RateState),
      RateInv s → RateInv (runCalls calls s)
  | [], _, h => h
  | c :: calls, s, h =>
    rateInv_runCalls calls _ (rateInv_step c.1 c.2 s h)

/-- C9: in every state of the rateLimits map reachable from the empty map by
any sequence of checkRateLimit calls, every existing window has a count
between 1 and the ceiling: counts are created at 1 and incremented only
strictly below RATE_LIMIT, so a stored count never exceeds the ceiling. -/
theorem checkRateLimit_countBounds (calls : List (Nat × String))
    (userId : String) (r : RateRecord)
    (h : runCalls calls RateState.empty userId = some r) :
    1 ≤ r.count ∧ r.count ≤ RATE_LIMIT :=
  rateInv_runCalls calls RateState.empty rateInv_empty userId r h

/-- A closed instance of the C9 theorem: after three calls for one user, the
stored window exists and the theorem bounds its count. -/
theorem checkRateLimit_countBounds_witness :
    1 ≤ (⟨3, 60005⟩ : RateRecord).count ∧
      (⟨3, 60005⟩ : RateRecord).count ≤ RATE_LIMIT :=
  checkRateLimit_countBounds [(5, "alice"), (6, "alice"), (7, "alice")]
    "alice" ⟨3, 60005⟩ (by decide)

theorem Store.save_same (s : Store) (id : Nat) (u : UserRec) :
    (s.save id u) id = some u := by
  simp [Store.save]

theorem verifyJwt_ok (life now : Nat) (t : Jwt)
    (h : now < t.expAt life) :
    verifyJwt life now (.signed t) = .ok t := by
  simp [verifyJwt, Nat.not_le_of_lt h]

theorem refreshToken_success (now : Nat) (t : Jwt) (s : Store) (u : UserRec)
    (hexp : now < t.expAt refreshTokenExpirySec)
    (hs : s t.userId = some u) (hfp : u.refreshToken = some t) :
    refreshToken now (.signed t) s =
      (.ok (generateTokens t.userId now),
        s.save t.userId
          { u with refreshToken := some (generateTokens t.userId now).2 }) := by
  simp [refreshToken, verifyJwt_ok _ _ _ hexp, hs, hfp]

theorem refreshToken_staleNone (now : Nat) (t : Jwt) (s : Store)
    (hexp : now < t.expAt refreshTokenExpirySec)
    (hs : s t.userId = none) :
    refreshToken now (.signed t) s = (.error .stale, s) := by
  simp [refreshToken, verifyJwt_ok _ _ _ hexp, hs]

theorem refreshToken_staleMismatch (now : Nat) (t : Jwt) (s : Store)
    (u : UserRec) (hexp : now < t.expAt refreshTokenExpirySec)
    (hs : s t.userId = some u) (hfp : u.refreshToken ≠ some t) :
    refreshToken now (.signed t) s = (.error .stale, s) := by
  simp [refreshToken, verifyJwt_ok _ _ _ hexp, hs, hfp]

/-- C1 (amended): rotation contract of the refresh endpoint. For a
structurally valid, unexpired presented token t: if the stored fingerprint
of the embedded user byte-equals t, rotation succeeds with the freshly
minted pair and overwrites the stored fingerprint with the new refresh token
before responding; if the embedded user has no record or the stored
fingerprint does not byte-equal t, rotation fails with Stale and leaves the
store unchanged. After a successful rotation that happened at a clock second
other than the issuance second of t (so that the newly minted refresh token
differs from t), any later rotation presenting t while t is still unexpired
fails with Stale. The extra proviso is forced: jwt.sign is deterministic, so
a rotation in the very second t was minted stores a byte-identical
fingerprint and a replay of t then still succeeds (see the counterexample). -/
theorem refreshToken_rotation :
    (∀ now t s u, now < Jwt.expAt refreshTokenExpirySec t →
      s t.userId = some u → u.refreshToken = some t →
      refreshToken now (.signed t) s =
        (.ok (generateTokens t.userId now),
          s.save t.userId
            { u with
              refreshToken := some (generateTokens t.userId now).2 })) ∧
    (∀ now t s, now < Jwt.expAt refreshTokenExpirySec t →
      s t.userId = none →
      refreshToken now (.signed t) s = (.error .stale, s)) ∧
    (∀ now t s u, now < Jwt.expAt refreshTokenExpirySec t →
      s t.userId = some u → u.refreshToken ≠ some t →
      refreshToken now (.signed t) s = (.error .stale, s)) ∧
    (∀ now t s u, now < Jwt.expAt refreshTokenExpirySec t →
      s t.userId = some u → u.refreshToken = some t → now ≠ t.iat →
      ∀ now2, now2 < Jwt.expAt refreshTokenExpirySec t →
        refreshToken now2 (.signed t) (refreshToken now (.signed t) s).2 =
          (.error .stale, (refreshToken now (.signed t) s).2)) := by
  refine ⟨refreshToken_success, refreshToken_staleNone,
    refreshToken_staleMismatch, ?_⟩
  intro now t s u hexp hs hfp hne now2 hexp2
  rw [refreshToken_success now t s u hexp hs hfp]
  apply refreshToken_staleMismatch now2 t _ _ hexp2
  · exact Store.save_same s t.userId _
  · show some (generateTokens t.userId now).2 ≠ some t
    intro h
    have h2 := Option.some.inj h
    exact hne (congrArg Jwt.iat h2)

/-- A closed instance of the C1 theorem, discharging every hypothesis at a
concrete store and token. -/
theorem refreshToken_rotation_witness :
    (refreshToken 11 (.signed ⟨7, 10⟩)
        (Store.empty.save 7 ⟨"u", "e", some ⟨7, 10⟩⟩) =
      (.ok (generateTokens 7 11),
        (Store.empty.save 7 ⟨"u", "e", some ⟨7, 10⟩⟩).save 7
          ⟨"u", "e", some (generateTokens 7 11).2⟩)) ∧
    (refreshToken 11 (.signed ⟨8, 10⟩)
        (Store.empty.save 7 ⟨"u", "e", some ⟨7, 10⟩⟩) =
      (.error .stale, Store.empty.save 7 ⟨"u", "e", some ⟨7, 10⟩⟩)) ∧
    (refreshToken 11 (.signed ⟨7, 9⟩)
        (Store.empty.save 7 ⟨"u", "e", some ⟨7, 10⟩⟩) =
      (.error .stale, Store.empty.save 7 ⟨"u", "e", some ⟨7, 10⟩⟩)) ∧
    (refreshToken 12 (.signed ⟨7, 10⟩)
        (refreshToken 11 (.signed ⟨7, 10⟩)
          (Store.empty.save 7 ⟨"u", "e", some ⟨7, 10⟩⟩)).2 =
      (.error .stale,
        (refreshToken 11 (.signed ⟨7, 10⟩)
          (Store.empty.save 7 ⟨"u", "e", some ⟨7, 10⟩⟩)).2)) :=
  ⟨refreshToken_rotation.1 11 ⟨7, 10⟩ _ _ (by decide) rfl rfl,
    refreshToken_rotation.2.1 11 ⟨8, 10⟩ _ (by decide) rfl,
    refreshToken_rotation.2.2.1 11 ⟨7, 9⟩ _ _ (by decide) rfl (by decide),
    refreshToken_rotation.2.2.2 11 ⟨7, 10⟩ _ _ (by decide) rfl rfl
      (by decide) 12 (by decide)⟩

/-- C1 counterexample to the claim as stated: jwt.sign with the HS256
default is deterministic, so a rotation performed in the very second the
presented refresh token was minted stores a new fingerprint byte-identical
to the presented token. A second rotation presenting the same token then
succeeds instead of failing with Stale. -/
theorem refreshToken_rotation_counterexample :
    (refreshToken 10 (.signed ⟨7, 10⟩)
        (Store.empty.save 7 ⟨"u", "e", some ⟨7, 10⟩⟩)).1 =
      .ok (⟨7, 10⟩, ⟨7, 10⟩) ∧
    (refreshToken 10 (.signed ⟨7, 10⟩)
        (refreshToken 10 (.signed ⟨7, 10⟩)
          (Store.empty.save 7 ⟨"u", "e", some ⟨7, 10⟩⟩)).2).1 =
      .ok (⟨7, 10⟩, ⟨7, 10⟩) ∧
    (refreshToken 10 (.signed ⟨7, 10⟩)
        (refreshToken 10 (.signed ⟨7, 10⟩)
          (Store.empty.save 7 ⟨"u", "e", some ⟨7, 10⟩⟩)).2).1 ≠
      .error .stale := by
  have h2 : (refreshToken 10 (.signed ⟨7, 10⟩)
      (refreshToken 10 (.signed ⟨7, 10⟩)
        (Store.empty.save 7 ⟨"u", "e", some ⟨7, 10⟩⟩)).2).1 =
      .ok ((⟨7, 10⟩ : Jwt), (⟨7, 10⟩ : Jwt)) := rfl
  refine ⟨rfl, h2, ?_⟩
  rw [h2]
  simp

/-- C2 (amended): outcome classification of access-token verification.
Signature and expiry checking is stateless: a junk token yields the
malformed rejection and an expired one the expired rejection for every
store. But after a successful verification the middleware loads the
embedded principal from the user collection and rejects the request when
the principal does not exist, so verification is not fully stateless: its
outcome depends on which principals exist (and on their username and email),
though it is insensitive to the stored refresh-token fingerprints. -/
theorem authenticateToken_classification :
    (∀ now str (s : Store),
      authenticateToken now (some (.junk str)) s = .invalidToken) ∧
    (∀ now t (s : Store), t.expAt accessTokenExpirySec ≤ now →
      authenticateToken now (some (.signed t)) s = .expired) ∧
    (∀ now t (s : Store), now < t.expAt accessTokenExpirySec →
      s t.userId = none →
      authenticateToken now (some (.signed t)) s = .userNotFound) ∧
    (∀ now t (s : Store) u, now < t.expAt accessTokenExpirySec →
      s t.userId = some u →
      authenticateToken now (some (.signed t)) s =
        .ok t.userId u.username u.email) ∧
    (∀ now p (s1 s2 : Store),
      (∀ id, (s1 id).map (fun u => (u.username, u.email)) =
        (s2 id).map (fun u => (u.username, u.email))) →
      authenticateToken now p s1 = authenticateToken now p s2) := by
  refine ⟨?_, ?_, ?_, ?_, ?_⟩
  · intro now str s
    simp [authenticateToken, verifyJwt]
  · intro now t s h
    simp [authenticateToken, verifyJwt, h]
  · intro now t s h hs
    simp [authenticateToken, verifyJwt_ok _ _ _ h, hs]
  · intro now t s u h hs
    simp [authenticateToken, verifyJwt_ok _ _ _ h, hs]
  · intro now p s1 s2 hagree
    match p with
    | none => rfl
    | some (.junk str) => rfl
    | some (.signed t) =>
      by_cases h : t.expAt accessTokenExpirySec ≤ now
      · simp [authenticateToken, verifyJwt, h]
      · have h' : now < t.expAt accessTokenExpirySec := by omega
        have ha := hagree t.userId
        rcases h1 : s1 t.userId with _ | u1 <;>
          rcases h2 : s2 t.userId with _ | u2 <;>
            rw [h1, h2] at ha <;> simp at ha
        · simp [authenticateToken, verifyJwt_ok _ _ _ h', h1, h2]
        · simp [authenticateToken, verifyJwt_ok _ _ _ h', h1, h2, ha.1, ha.2]

/-- A closed instance of the C2 theorem, discharging its hypotheses at a
concrete token and store. -/
theorem authenticateToken_classification_witness :
    authenticateToken 1000 (some (.signed ⟨3, 0⟩)) Store.empty = .expired ∧
    authenticateToken 1 (some (.signed ⟨3, 0⟩)) Store.empty = .userNotFound ∧
    authenticateToken 1 (some (.signed ⟨3, 0⟩))
      (Store.empty.save 3 ⟨"a", "e", some ⟨3, 0⟩⟩) = .ok 3 "a" "e" ∧
    authenticateToken 1 (some (.signed ⟨3, 0⟩))
        (Store.empty.save 3 ⟨"a", "e", some ⟨3, 0⟩⟩) =
      authenticateToken 1 (some (.signed ⟨3, 0⟩))
        (Store.empty.save 3 ⟨"a", "e", none⟩) :=
  ⟨authenticateToken_classification.2.1 1000 ⟨3, 0⟩ Store.empty (by decide),
    authenticateToken_classification.2.2.1 1 ⟨3, 0⟩ Store.empty
      (by decide) rfl,
    authenticateToken_classification.2.2.2.1 1 ⟨3, 0⟩ _ _ (by decide) rfl,
    authenticateToken_classification.2.2.2.2 1 (some (.signed ⟨3, 0⟩)) _ _
      (by
        intro id
        by_cases h : id = 3 <;>
          simp [Store.save, Store.empty, h])⟩

/-- C2 counterexample to the claim as stated: the same access token yields
different outcomes on two different store states, because authenticateToken
loads the embedded user from the collection (User.findById) and rejects the
request when the user does not exist. Verification is therefore not
independent of the Credential Store state. -/
theorem authenticateToken_counterexample :
    authenticateToken 0 (some (.signed ⟨0, 0⟩)) Store.empty ≠
      authenticateToken 0 (some (.signed ⟨0, 0⟩))
        (Store.empty.save 0 ⟨"a", "e", none⟩) := by
  intro h
  have h1 : authenticateToken 0 (some (.signed ⟨0, 0⟩)) Store.empty =
      .userNotFound := rfl
  have h2 : authenticateToken 0 (some (.signed ⟨0, 0⟩))
      (Store.empty.save 0 ⟨"a", "e", none⟩) = .ok 0 "a" "e" := rfl
  rw [h1, h2] at h
  cases h

/-- C6: the revoke contract of the logout endpoint. Logout of a presented
token fails with the InvalidToken rejection exactly when jwt.verify rejects
the presented string (not a token signed with the refresh secret, or past
its expiry). When the token verifies and the embedded principal is loaded,
logout clears the stored fingerprint and succeeds, regardless of whether a
fingerprint was stored, so a second revocation of an already-revoked token
also succeeds (idempotence). After a successful revocation of t, a rotation
presenting t while t is structurally valid fails with Stale and leaves the
store unchanged. -/
theorem logout_revoke :
    (∀ now p (s : Store), (logout now (some p) s).1 = .invalidToken ↔
      ∃ e, verifyJwt refreshTokenExpirySec now p = .error e) ∧
    (∀ now t (s : Store) u, now < t.expAt refreshTokenExpirySec →
      s t.userId = some u →
      logout now (some (.signed t)) s =
        (.ok, s.save t.userId { u with refreshToken := none })) ∧
    (∀ now now2 t (s : Store) u, now < t.expAt refreshTokenExpirySec →
      now2 < t.expAt refreshTokenExpirySec → s t.userId = some u →
      (logout now2 (some (.signed t))
        (logout now (some (.signed t)) s).2).1 = .ok) ∧
    (∀ now now2 t (s : Store) u, now < t.expAt refreshTokenExpirySec →
      now2 < t.expAt refreshTokenExpirySec → s t.userId = some u →
      refreshToken now2 (.signed t) (logout now (some (.signed t)) s).2 =
        (.error .stale, (logout now (some (.signed t)) s).2)) := by
  have hsucc : ∀ now t (s : Store) u, now < t.expAt refreshTokenExpirySec →
      s t.userId = some u →
      logout now (some (.signed t)) s =
        (.ok, s.save t.userId { u with refreshToken := none }) := by
    intro now t s u h hs
    simp [logout, verifyJwt_ok _ _ _ h, hs]
  refine ⟨?_, hsucc, ?_, ?_⟩
  · intro now p s
    constructor
    · intro h
      match hv : verifyJwt refreshTokenExpirySec now p with
      | .error e => exact ⟨e, rfl⟩
      | .ok t =>
        exfalso
        rcases hs : s t.userId with _ | u <;>
          simp [logout, hv, hs] at h
    · rintro ⟨e, hv⟩
      simp [logout, hv]
  · intro now now2 t s u h h2 hs
    rw [hsucc now t s u h hs]
    rw [hsucc now2 t _ _ h2 (Store.save_same s t.userId _)]
  · intro now now2 t s u h h2 hs
    rw [hsucc now t s u h hs]
    apply refreshToken_staleMismatch now2 t _ _ h2
      (Store.save_same s t.userId _)
    simp

/-- A closed instance of the C6 theorem, discharging every hypothesis at a
concrete store and token. -/
theorem logout_revoke_witness :
    ((logout 11 (some (.junk "zzz"))
        (Store.empty.save 7 ⟨"u", "e", some ⟨7, 10⟩⟩)).1 = .invalidToken ↔
      ∃ e, verifyJwt refreshTokenExpirySec 11 (.junk "zzz") = .error e) ∧
    (logout 11 (some (.signed ⟨7, 10⟩))
        (Store.empty.save 7 ⟨"u", "e", some ⟨7, 10⟩⟩) =
      (.ok, (Store.empty.save 7 ⟨"u", "e", some ⟨7, 10⟩⟩).save 7
        ⟨"u", "e", none⟩)) ∧
    ((logout 12 (some (.signed ⟨7, 10⟩))
        (logout 11 (some (.signed ⟨7, 10⟩))
          (Store.empty.save 7 ⟨"u", "e", some ⟨7, 10⟩⟩)).2).1 = .ok) ∧
    (refreshToken 12 (.signed ⟨7, 10⟩)
        (logout 11 (some (.signed ⟨7, 10⟩))
          (Store.empty.save 7 ⟨"u", "e", some ⟨7, 10⟩⟩)).2 =
      (.error .stale,
        (logout 11 (some (.signed ⟨7, 10⟩))
          (Store.empty.save 7 ⟨"u", "e", some ⟨7, 10⟩⟩)).2)) :=
  ⟨logout_revoke.1 11 (.junk "zzz") _,
    logout_revoke.2.1 11 ⟨7, 10⟩ _ _ (by decide) rfl,
    logout_revoke.2.2.1 11 12 ⟨7, 10⟩ _ _ (by decide) (by decide) rfl,
    logout_revoke.2.2.2 11 12 ⟨7, 10⟩ _ _ (by decide) (by decide) rfl⟩

/-- Model of displayName.replace(whitespace+, empty).slice(0, 25) with the
fallback to the literal user: the derived candidate handle of the Google
verify callback. Stripping every whitespace character is the effect of the
global replacement of whitespace runs by the empty string. -/
def stripWhitespace (s : String) : String :=
  String.mk (s.data.filter (fun c => !c.isWhitespace))

/-- Candidate handle derived from the federated display name. -/
def deriveUsernameBase (displayName : String) : String :=
  let s := (stripWhitespace displayName).take 25
  if s = "" then "user" else s

/-- Loop body of ensureUniqueUsername: while the candidate is taken, append
the incremented numeric suffix to the base, truncate to 30, and re-check.
The taken list models the usernames present in the user collection; fuel
bounds the loop, which in the source runs until a free handle is found. -/
def ensureUniqueUsernameGo (taken : List String) (base : String) :
    Nat → String → Nat → Option String
  | 0, _, _ => none
  | fuel + 1, username, n =>
    if username ∈ taken then
      ensureUniqueUsernameGo taken base fuel
        ((base ++ toString (n + 1)).take 30) (n + 1)
    else some username

/-- Model of ensureUniqueUsername(base). -/
def ensureUniqueUsername (taken : List String) (base : String)
    (fuel : Nat) : Option String :=
  ensureUniqueUsernameGo taken base fuel base 0

/-- Model of the provisioning branch of the Google verify callback for a
brand-new identity: derive the candidate handle from the display name,
resolve collisions, and create the principal, after which its username is
part of the collection. -/
def provisionUsername (taken : List String) (displayName : String)
    (fuel : Nat) : Option (String × List String) :=
  (ensureUniqueUsername taken (deriveUsernameBase displayName) fuel).map
    (fun u => (u, u :: taken))

theorem ensureUniqueUsernameGo_notTaken (taken : List String)
    (base : String) :
    ∀ (fuel : Nat) (username : String) (n : Nat) (u : String),
      ensureUniqueUsernameGo taken base fuel username n = some u →
      u ∉ taken
  | 0, _, _, _, h => by simp [ensureUniqueUsernameGo] at h
  | fuel + 1, username, n, u, h => by
    rw [ensureUniqueUsernameGo] at h
    by_cases hm : username ∈ taken
    · rw [if_pos hm] at h
      exact ensureUniqueUsernameGo_notTaken taken base fuel _ _ u h
    · rw [if_neg hm] at h
      cases h
      exact hm

/-- C7: collision-safe federated handle provisioning. The first conjunct
states that any handle the collision loop returns is absent from the
collection; the second that an untaken candidate is returned as-is; the
third that a taken candidate makes the loop retry with the suffixed,
truncated candidate and incremented counter. The last conjunct is the
claim scenario: provisioning two distinct new federated identities whose
derived display names collide, the second against the collection extended
by the first created principal, yields two distinct handles. -/
theorem googleProvision_distinctHandles :
    (∀ taken base fuel u, ensureUniqueUsername taken base fuel = some u →
      u ∉ taken) ∧
    (∀ taken (base : String) fuel, base ∉ taken →
      ensureUniqueUsername taken base (fuel + 1) = some base) ∧
    (∀ taken (base : String) fuel, base ∈ taken →
      ensureUniqueUsername taken base (fuel + 1) =
        ensureUniqueUsernameGo taken base fuel
          ((base ++ toString 1).take 30) 1) ∧
    (∀ taken d1 d2 fuel1 fuel2 u1 s1 u2 s2,
      deriveUsernameBase d1 = deriveUsernameBase d2 →
      provisionUsername taken d1 fuel1 = some (u1, s1) →
      provisionUsername s1 d2 fuel2 = some (u2, s2) →
      u1 ≠ u2) := by
  refine ⟨?_, ?_, ?_, ?_⟩
  · intro taken base fuel u h
    exact ensureUniqueUsernameGo_notTaken taken base fuel base 0 u h
  · intro taken base fuel h
    simp [ensureUniqueUsername, ensureUniqueUsernameGo, h]
  · intro taken base fuel h
    simp [ensureUniqueUsername, ensureUniqueUsernameGo, h]
  · intro taken d1 d2 fuel1 fuel2 u1 s1 u2 s2 _ h1 h2
    rcases he1 : ensureUniqueUsername taken (deriveUsernameBase d1) fuel1
      with _ | v1 <;> simp [provisionUsername, he1] at h1
    rcases he2 : ensureUniqueUsername s1 (deriveUsernameBase d2) fuel2
      with _ | v2 <;> simp [provisionUsername, he2] at h2
    have hnot := ensureUniqueUsernameGo_notTaken s1
      (deriveUsernameBase d2) fuel2 _ 0 v2 he2
    rcases h1 with ⟨hu1, hs1⟩
    rcases h2 with ⟨hu2, _⟩
    subst hu1
    subst hu2
    subst hs1
    intro hequ
    exact hnot (hequ ▸ List.mem_cons_self v1 taken)

set_option maxRecDepth 8000 in
/-- A closed instance of the C7 theorem: two colliding display names yield
the base handle and the suffixed handle, which differ. -/
theorem googleProvision_distinctHandles_witness :
    provisionUsername [] "Dan Smith" 3 =
      some ("DanSmith", ["DanSmith"]) ∧
    provisionUsername ["DanSmith"] "Dan  Smith" 3 =
      some ("DanSmith1", ["DanSmith1", "DanSmith"]) ∧
    ("DanSmith" : String) ≠ "DanSmith1" :=
  ⟨by decide, by decide,
    googleProvision_distinctHandles.2.2.2 [] "Dan Smith" "Dan  Smith" 3 3
      "DanSmith" ["DanSmith"] "DanSmith1" ["DanSmith1", "DanSmith"]
      (by decide) (by decide) (by decide)⟩

/-- Values produced by JSON.parse. -/
inductive Json where
  | null
  | bool (b : Bool)
  | num (n : Int)
  | str (s : String)
  | arr (elems : List Json)
  | obj (fields : List (String × Json))

/-- JS truthiness of a parsed JSON value (the item and item.id guard). -/
def jsTruthy : Json → Bool
  | .null => false
  | .bool b => b
  | .num n => n != 0
  | .str s => s != ""
  | .arr _ => true
  | .obj _ => true

/-- Property access item.key on a parsed JSON value: a field of an object,
undefined (none) otherwise. -/
def Json.getField : Json → String → Option Json
  | .obj fields, k => (fields.find? (fun f => f.1 == k)).map (fun f => f.2)
  | _, _ => none

/-- The backtick character, written by code point to keep the sources
readable. -/
def graveChar : Char := Char.ofNat 96

/-- First alternative of the fence-stripping regex, with the optional
newline present. -/
def fenceJsonNl : List Char :=
  graveChar :: graveChar :: graveChar :: 'j' :: 's' :: 'o' :: 'n' :: '\n' :: []

/-- First alternative of the fence-stripping regex, without the newline. -/
def fenceJson : List Char :=
  graveChar :: graveChar :: graveChar :: 'j' :: 's' :: 'o' :: 'n' :: []

/-- Second alternative of the fence-stripping regex, with the optional
newline present. -/
def fenceNl : List Char :=
  '\n' :: graveChar :: graveChar :: graveChar :: []

/-- Second alternative of the fence-stripping regex, without the newline. -/
def fenceBare : List Char := graveChar :: graveChar :: graveChar :: []

theorem fenceJsonNl_eq : fenceJsonNl = "```json\n".data := by decide

theorem fenceNl_eq : fenceNl = "\n```".data := by decide

/-- One pass of the global replacement of the fence regex by the empty
string: at each position the alternatives are tried in the order of the
regex alternation with greedy optional newlines; on a match the matched
characters are dropped and scanning resumes after them, otherwise one
character is emitted. The fuel argument only bounds the recursion and never
runs out when it starts at the length of the input. -/
def stripFencesGo : Nat → List Char → List Char
  | 0, s => s
  | _ + 1, [] => []
  | fuel + 1, c :: cs =>
    if fenceJsonNl.isPrefixOf (c :: cs) then
      stripFencesGo fuel ((c :: cs).drop 8)
    else if fenceJson.isPrefixOf (c :: cs) then
      stripFencesGo fuel ((c :: cs).drop 7)
    else if fenceNl.isPrefixOf (c :: cs) then
      stripFencesGo fuel ((c :: cs).drop 4)
    else if fenceBare.isPrefixOf (c :: cs) then
      stripFencesGo fuel ((c :: cs).drop 3)
    else c :: stripFencesGo fuel cs

/-- Global replacement of the code-fence patterns by the empty string. -/
def stripFences (s : List Char) : List Char := stripFencesGo s.length s

/-- Model of response.replace(fence-regex, empty).trim(). -/
def cleanResponse (s : String) : String :=
  (String.mk (stripFences s.data)).trim

/-- A ranked search result: post id plus justification. -/
structure SearchResult where
  id : String
  reason : String
deriving DecidableEq, Repr

/-- The guard typeof item.id is the string type. -/
def hasStringId (item : Json) : Bool :=
  match item.getField "id" with
  | some (.str _) => true
  | _ => false

/-- The value of item.id, a string for every item passing the filter. -/
def idOf (item : Json) : String :=
  match item.getField "id" with
  | some (.str s) => s
  | _ => ""

/-- The attached reason: item.reason when it is a string, the generic
placeholder otherwise. -/
def reasonOf (item : Json) : String :=
  match item.getField "reason" with
  | some (.str s) => s
  | _ => "Relevant to search"

/-- Model of parseSearchResults, parameterized by the JSON.parse function
(none models a parse exception): strip fences and trim, parse, and on an
array keep the truthy items with a string id, attaching the defaulted
reason; any parse failure or non-array result yields the empty list. -/
def parseSearchResults (parse : String → Option Json) (response : String) :
    List SearchResult :=
  match parse (cleanResponse response) with
  | some (.arr items) =>
    (items.filter (fun item => jsTruthy item && hasStringId item)).map
      (fun item => ⟨idOf item, reasonOf item⟩)
  | some _ => []
  | none => []

/-- Model of parseRelevantPostIds of the superseded OpenAI variant: on an
array keep the items that are strings. -/
def parseRelevantPostIds (parse : String → Option Json) (response : String) :
    List String :=
  match parse (cleanResponse response) with
  | some (.arr items) =>
    items.filterMap (fun item =>
      match item with
      | .str s => some s
      | _ => none)
  | some _ => []
  | none => []

/-- A candidate handed to the ranking prompt. -/
structure PostForSearch where
  id : String
  content : String
deriving DecidableEq, Repr

/-- The observable settings of one external ranking call: model name, the
prompt, and the optional decoding settings passed with the request. A none
temperature or output bound means the request carries no such setting and
the provider default applies. -/
structure RankingCall where
  model : String
  prompt : String
  temperature : Option Nat
  maxTokens : Option Nat
deriving DecidableEq, Repr

/-- Model of buildSearchPrompt of the Gemini variant. -/
def buildSearchPrompt (query : String) (posts : List PostForSearch) :
    String :=
  let postsText := String.intercalate "\n\n"
    (posts.map (fun p => "ID: " ++ p.id ++ "\nContent: " ++ p.content))
  "Given this search query: \"" ++ query ++
    "\"\n\nFind posts that are semantically relevant to the query. Return a JSON array of objects with \"id\" and \"reason\" fields, ordered by relevance (most relevant first). The reason should be a brief explanation (max 10 words) of why this post matches. If no posts match, return an empty array.\n\nExample response format: [\x7b\"id\": \"abc123\", \"reason\": \"Discusses the topic directly\"\x7d]\n\nPosts:\n" ++
    postsText ++ "\n\nResponse (JSON array only):"

/-- Model of buildSearchPrompt of the superseded OpenAI variant. -/
def buildSearchPromptIds (query : String) (posts : List PostForSearch) :
    String :=
  let postsText := String.intercalate "\n\n"
    (posts.map (fun p => "ID: " ++ p.id ++ "\nContent: " ++ p.content))
  "Given this search query: \"" ++ query ++
    "\"\n\nFind posts that are semantically relevant to the query. Return ONLY a JSON array of post IDs that match, ordered by relevance (most relevant first). If no posts match, return an empty array.\n\nPosts:\n" ++
    postsText ++ "\n\nResponse (JSON array of IDs only):"

/-- Model of searchPostsByAI of the Gemini variant: return empty at once on
an empty candidate list without issuing any external call; otherwise issue
one generateContent call that passes only the model name and the prompt (no
temperature, no output-token bound), default a missing or empty response
text to the empty JSON array, and parse defensively. The second component
lists the external calls issued. -/
def searchPostsByAI (parse : String → Option Json)
    (upstream : String → Option String) (query : String)
    (allPosts : List PostForSearch) :
    List SearchResult × List RankingCall :=
  if allPosts.length = 0 then ([], [])
  else
    let prompt := buildSearchPrompt query allPosts
    let call : RankingCall := ⟨"gemini-2.5-flash", prompt, none, none⟩
    let responseText :=
      match upstream prompt with
      | some s => if s = "" then "[]" else s
      | none => "[]"
    (parseSearchResults parse responseText, [call])

/-- Model of searchPostsByAI of the superseded OpenAI variant, which passes
temperature 0 and max_tokens 500 with the chat completion request. -/
def searchPostsByAIOpenai (parse : String → Option Json)
    (upstream : String → Option String) (query : String)
    (allPosts : List PostForSearch) :
    List String × List RankingCall :=
  if allPosts.length = 0 then ([], [])
  else
    let prompt := buildSearchPromptIds query allPosts
    let call : RankingCall := ⟨"gpt-3.5-turbo", prompt, some 0, some 500⟩
    let responseText :=
      match upstream prompt with
      | some s => if s = "" then "[]" else s
      | none => "[]"
    (parseRelevantPostIds parse responseText, [call])

/-- A fetched domain post (the fields the reconstruction reads). -/
structure Post where
  pid : String
  content : String
deriving DecidableEq, Repr

/-- A post annotated with the attached searchReason. -/
structure AnnotatedPost where
  post : Post
  searchReason : String
deriving DecidableEq, Repr

/-- Semantic model of the Map built once from
searchResults.map((r, index) to [r.id, (index, reason)]) and then read with
get: constructing a Map from an entry list lets later entries overwrite
earlier ones, so get returns the index and reason of the LAST occurrence of
the key, here computed recursively. -/
def resultMapGet : List SearchResult → String → Option (Nat × String)
  | [], _ => none
  | r :: rest, k =>
    match resultMapGet rest k with
    | some (i, s) => some (i + 1, s)
    | none => if r.id = k then some (0, r.reason) else none

/-- The numeric sort key of the comparator, with the unreachable default
999 kept from the source. -/
def rankOf (rs : List SearchResult) (p : Post) : Nat :=
  match resultMapGet rs p.pid with
  | some (i, _) => i
  | none => 999

/-- The attached justification: the mapped reason, or the generic
placeholder when the lookup is missing or the reason string is falsy. -/
def annotatedReason (rs : List SearchResult) (p : Post) : String :=
  match resultMapGet rs p.pid with
  | some (_, s) => if s = "" then "Relevant to search" else s
  | none => "Relevant to search"

/-- Stable insertion for the model of Array.prototype.sort with the
comparator on numeric keys: the inserted element comes from earlier in the
original order than the already-sorted elements, so it is placed before the
first element whose key is not smaller. -/
def sortInsert (key : Post → Nat) (p : Post) : List Post → List Post
  | [] => [p]
  | q :: l => if key q < key p then q :: sortInsert key p l else p :: q :: l

/-- Stable sort by a numeric key (Array.prototype.sort is stable). -/
def sortByKey (key : Post → Nat) (l : List Post) : List Post :=
  l.foldr (sortInsert key) []

/-- Model of the reconstruction in searchPosts: filter the fetched posts to
those present in the result map, sort by the mapped index, and attach the
justification. -/
def matchedPosts (posts : List Post) (rs : List SearchResult) :
    List AnnotatedPost :=
  (sortByKey (rankOf rs)
      (posts.filter (fun p => (resultMapGet rs p.pid).isSome))).map
    (fun p => ⟨p, annotatedReason rs p⟩)

/-- The searchPosts controller after admission: build the candidate list
from the fetched posts, run the AI search, and reconstruct. -/
def searchPipeline (parse : String → Option Json)
    (upstream : String → Option String) (query : String)
    (posts : List Post) : List AnnotatedPost × List RankingCall :=
  let forSearch := posts.map (fun p => PostForSearch.mk p.pid p.content)
  let res := searchPostsByAI parse upstream query forSearch
  (matchedPosts posts res.1, res.2)

/-- C8: evaluation of the code at the failing input. The specification
requires the external ranking call to pin temperature to zero with a
bounded output size, and the superseded OpenAI variant did pass
temperature 0 and max_tokens 500; but the current Gemini variant invokes
generateContent with only the model name and the prompt, so its request
carries no temperature and no output-token bound. -/
theorem searchPostsByAI_missingDeterministicSettings :
    ((searchPostsByAI (fun _ => none) (fun _ => none) "q"
        [⟨"p1", "hello"⟩]).2.map
      (fun c => (c.model, c.temperature, c.maxTokens))) =
      [("gemini-2.5-flash", none, none)] ∧
    ((searchPostsByAIOpenai (fun _ => none) (fun _ => none) "q"
        [⟨"p1", "hello"⟩]).2.map
      (fun c => (c.model, c.temperature, c.maxTokens))) =
      [("gpt-3.5-turbo", some 0, some 500)] :=
  ⟨rfl, rfl⟩

theorem stripFencesGo_nil : ∀ fuel, stripFencesGo fuel [] = []
  | 0 => rfl
  | _ + 1 => rfl

theorem isPrefixOf_self_append (p r : List Char) :
    p.isPrefixOf (p ++ r) = true :=
  List.isPrefixOf_iff_prefix.mpr (List.prefix_append p r)

theorem stripFencesGo_cons (fuel : Nat) (c : Char) (cs : List Char) :
    stripFencesGo (fuel + 1) (c :: cs) =
      if fenceJsonNl.isPrefixOf (c :: cs) then
        stripFencesGo fuel ((c :: cs).drop 8)
      else if fenceJson.isPrefixOf (c :: cs) then
        stripFencesGo fuel ((c :: cs).drop 7)
      else if fenceNl.isPrefixOf (c :: cs) then
        stripFencesGo fuel ((c :: cs).drop 4)
      else if fenceBare.isPrefixOf (c :: cs) then
        stripFencesGo fuel ((c :: cs).drop 3)
      else c :: stripFencesGo fuel cs := rfl

theorem fenceNl_isPrefixOf_false (c : Char) (cs : List Char)
    (hb : fenceBare.isPrefixOf cs = false) :
    fenceNl.isPrefixOf (c :: cs) = false := by
  rw [show fenceNl.isPrefixOf (c :: cs) =
      (('\n' == c) && fenceBare.isPrefixOf cs) from rfl, hb, Bool.and_false]

theorem graveHead_isPrefixOf_false (c : Char) (cs pat : List Char)
    (hc : c ≠ graveChar) :
    (graveChar :: pat).isPrefixOf (c :: cs) = false := by
  have h : (graveChar == c) = false :=
    beq_eq_false_iff_ne.mpr (fun h => hc h.symm)
  simp [List.isPrefixOf, h]

theorem fenceBare_isPrefixOf_false (cs : List Char)
    (h : ∀ d ∈ cs.take 1, d ≠ graveChar) :
    fenceBare.isPrefixOf cs = false := by
  match cs with
  | [] => rfl
  | d :: ds =>
    exact graveHead_isPrefixOf_false d ds _ (h d (by simp))

theorem stripFencesGo_noGrave :
    ∀ (l : List Char), (∀ c ∈ l, c ≠ graveChar) →
      ∀ fuel, l.length ≤ fuel → stripFencesGo fuel l = l
  | [], _, fuel, _ => stripFencesGo_nil fuel
  | c :: cs, h, fuel, hf => by
    obtain ⟨f, rfl⟩ : ∃ f, fuel = f + 1 :=
      ⟨fuel - 1, by simp at hf; omega⟩
    have hc : c ≠ graveChar := h c (by simp)
    have hcs : ∀ d ∈ cs, d ≠ graveChar := fun d hd => h d (by simp [hd])
    have h1 : fenceJsonNl.isPrefixOf (c :: cs) = false :=
      graveHead_isPrefixOf_false c cs _ hc
    have h2 : fenceJson.isPrefixOf (c :: cs) = false :=
      graveHead_isPrefixOf_false c cs _ hc
    have h4 : fenceBare.isPrefixOf (c :: cs) = false :=
      graveHead_isPrefixOf_false c cs _ hc
    have h3 : fenceNl.isPrefixOf (c :: cs) = false :=
      fenceNl_isPrefixOf_false c cs
        (fenceBare_isPrefixOf_false cs
          (fun d hd => hcs d (List.mem_of_mem_take hd)))
    have hrec := stripFencesGo_noGrave cs hcs f (by simp at hf; omega)
    rw [stripFencesGo_cons, if_neg (by simp [h1]), if_neg (by simp [h2]),
      if_neg (by simp [h3]), if_neg (by simp [h4]), hrec]

theorem stripFencesGo_fenceNl :
    ∀ fuel, 4 ≤ fuel → stripFencesGo fuel fenceNl = [] := by
  intro fuel hf
  obtain ⟨f, rfl⟩ : ∃ f, fuel = f + 1 := ⟨fuel - 1, by omega⟩
  have h1 : fenceJsonNl.isPrefixOf fenceNl = false := by decide
  have h2 : fenceJson.isPrefixOf fenceNl = false := by decide
  have h3 : fenceNl.isPrefixOf fenceNl = true := by decide
  show stripFencesGo (f + 1) ('\n' :: fenceBare) = []
  simp only [show ('\n' :: fenceBare) = fenceNl from rfl]
  simp [stripFencesGo, fenceNl, fenceBare, h1, h2, h3, stripFencesGo_nil]

theorem stripFencesGo_body_fence :
    ∀ (l : List Char), (∀ c ∈ l, c ≠ graveChar) →
      ∀ fuel, (l ++ fenceNl).length ≤ fuel →
      stripFencesGo fuel (l ++ fenceNl) = l
  | [], _, fuel, hf => by
    simp only [List.nil_append]
    exact stripFencesGo_fenceNl fuel (by simpa [fenceNl] using hf)
  | c :: cs, h, fuel, hf => by
    obtain ⟨f, rfl⟩ : ∃ f, fuel = f + 1 :=
      ⟨fuel - 1, by simp at hf; omega⟩
    have hc : c ≠ graveChar := h c (by simp)
    have hcs : ∀ d ∈ cs, d ≠ graveChar := fun d hd => h d (by simp [hd])
    have h1 : fenceJsonNl.isPrefixOf (c :: (cs ++ fenceNl)) = false :=
      graveHead_isPrefixOf_false c _ _ hc
    have h2 : fenceJson.isPrefixOf (c :: (cs ++ fenceNl)) = false :=
      graveHead_isPrefixOf_false c _ _ hc
    have h4 : fenceBare.isPrefixOf (c :: (cs ++ fenceNl)) = false :=
      graveHead_isPrefixOf_false c _ _ hc
    have hhead : ∀ d ∈ (cs ++ fenceNl).take 1, d ∈ cs ∨ d = '\n' := by
      cases cs with
      | nil => simp [fenceNl]
      | cons e es => simp
    have h3 : fenceNl.isPrefixOf (c :: (cs ++ fenceNl)) = false := by
      apply fenceNl_isPrefixOf_false
      apply fenceBare_isPrefixOf_false
      intro d hd
      rcases hhead d hd with hmem | rfl
      · exact hcs d hmem
      · decide
    have hrec := stripFencesGo_body_fence cs hcs f (by simp at hf ⊢; omega)
    simp only [List.cons_append]
    rw [stripFencesGo_cons, if_neg (by simp [h1]), if_neg (by simp [h2]),
      if_neg (by simp [h3]), if_neg (by simp [h4]), hrec]

theorem stripFences_noGrave (l : List Char)
    (h : ∀ c ∈ l, c ≠ graveChar) : stripFences l = l :=
  stripFencesGo_noGrave l h l.length le_rfl

theorem stripFences_fenced (body : List Char)
    (h : ∀ c ∈ body, c ≠ graveChar) :
    stripFences (fenceJsonNl ++ (body ++ fenceNl)) = body := by
  have hlen : (fenceJsonNl ++ (body ++ fenceNl)).length =
      (body.length + 11) + 1 := by
    simp [fenceJsonNl, fenceNl]
    try omega
  unfold stripFences
  rw [hlen]
  have hpre : fenceJsonNl.isPrefixOf (fenceJsonNl ++ (body ++ fenceNl)) =
      true := isPrefixOf_self_append _ _
  have hdrop : (fenceJsonNl ++ (body ++ fenceNl)).drop 8 =
      body ++ fenceNl := by
    simp [fenceJsonNl]
  have hform : fenceJsonNl ++ (body ++ fenceNl) =
      graveChar :: ((graveChar :: graveChar :: 'j' :: 's' :: 'o' :: 'n' ::
        '\n' :: []) ++ (body ++ fenceNl)) := rfl
  rw [hform, stripFencesGo_cons, ← hform, if_pos hpre, hdrop]
  exact stripFencesGo_body_fence body h _ (by simp [fenceNl]; try omega)

theorem cleanResponse_fenced (body : List Char)
    (h : ∀ c ∈ body, c ≠ graveChar) :
    cleanResponse (String.mk (fenceJsonNl ++ (body ++ fenceNl))) =
      cleanResponse (String.mk body) := by
  unfold cleanResponse
  rw [show (String.mk (fenceJsonNl ++ (body ++ fenceNl))).data =
      fenceJsonNl ++ (body ++ fenceNl) from rfl]
  rw [show (String.mk body).data = body from rfl]
  rw [stripFences_fenced body h, stripFences_noGrave body h]

/-- C5: defensive parsing of the upstream reply. A parse failure or a parse
result that is not an array yields the empty result list rather than an
error; within a parsed array exactly the truthy entries with a string id
survive, each mapped to its id and its reason; the reason of a surviving
entry is taken verbatim when the reason field is a string and replaced by
the generic placeholder otherwise; and code-fence wrapping around a
backtick-free payload is stripped before parsing, so a fence-wrapped
payload parses exactly as the bare payload. -/
theorem parseSearchResults_defensive :
    (∀ parse response, parse (cleanResponse response) = none →
      parseSearchResults parse response = []) ∧
    (∀ parse response v, parse (cleanResponse response) = some v →
      (∀ items, v ≠ Json.arr items) →
      parseSearchResults parse response = []) ∧
    (∀ parse response items,
      parse (cleanResponse response) = some (Json.arr items) →
      parseSearchResults parse response =
        (items.filter (fun item => jsTruthy item && hasStringId item)).map
          (fun item => ⟨idOf item, reasonOf item⟩)) ∧
    (∀ item, hasStringId item = true →
      item.getField "id" = some (.str (idOf item))) ∧
    (∀ item s, item.getField "reason" = some (.str s) →
      reasonOf item = s) ∧
    (∀ item, (∀ s, item.getField "reason" ≠ some (.str s)) →
      reasonOf item = "Relevant to search") ∧
    (∀ (parse : String → Option Json) (body : List Char),
      (∀ c ∈ body, c ≠ graveChar) →
      parseSearchResults parse
          (String.mk (fenceJsonNl ++ (body ++ fenceNl))) =
        parseSearchResults parse (String.mk body)) := by
  refine ⟨?_, ?_, ?_, ?_, ?_, ?_, ?_⟩
  · intro parse response h
    simp [parseSearchResults, h]
  · intro parse response v hv hne
    unfold parseSearchResults
    rw [hv]
    cases v with
    | arr items => exact (hne items rfl).elim
    | null => rfl
    | bool b => rfl
    | num n => rfl
    | str s => rfl
    | obj fields => rfl
  · intro parse response items h
    simp [parseSearchResults, h]
  · intro item h
    rcases hf : item.getField "id" with _ | j
    · unfold hasStringId at h
      rw [hf] at h
      simp at h
    · rcases j with _ | b | n | s | el | fl
      · unfold hasStringId at h; rw [hf] at h; simp at h
      · unfold hasStringId at h; rw [hf] at h; simp at h
      · unfold hasStringId at h; rw [hf] at h; simp at h
      · unfold idOf
        rw [hf]
      · unfold hasStringId at h; rw [hf] at h; simp at h
      · unfold hasStringId at h; rw [hf] at h; simp at h
  · intro item s h
    unfold reasonOf
    rw [h]
  · intro item h
    unfold reasonOf
    rcases hf : item.getField "reason" with _ | j
    · rfl
    · rcases j with _ | b | n | s | el | fl
      · rfl
      · rfl
      · rfl
      · exact (h s hf).elim
      · rfl
      · rfl
  · intro parse body h
    unfold parseSearchResults
    rw [cleanResponse_fenced body h]

/-- A closed instance of the C5 theorem, discharging every hypothesis at
concrete parse functions and payloads. -/
theorem parseSearchResults_defensive_witness :
    parseSearchResults (fun _ => none) "not json" = [] ∧
    parseSearchResults (fun _ => some (.num 5)) "5" = [] ∧
    parseSearchResults
        (fun _ => some (.arr
          [Json.obj [("id", Json.str "p1"), ("reason", Json.str "ok")],
            Json.obj [("id", Json.str "p2"), ("reason", Json.num 3)],
            Json.num 7,
            Json.obj [("reason", Json.str "no id")]])) "X" =
      [⟨"p1", "ok"⟩, ⟨"p2", "Relevant to search"⟩] ∧
    (Json.obj [("id", Json.str "p1")]).getField "id" =
      some (.str (idOf (Json.obj [("id", Json.str "p1")]))) ∧
    reasonOf (Json.obj [("reason", Json.str "ok")]) = "ok" ∧
    reasonOf (Json.num 7) = "Relevant to search" ∧
    parseSearchResults (fun _ => some (.num 5))
        (String.mk (fenceJsonNl ++ ("[1]".data ++ fenceNl))) =
      parseSearchResults (fun _ => some (.num 5)) (String.mk "[1]".data) :=
  ⟨parseSearchResults_defensive.1 (fun _ => none) "not json" rfl,
    parseSearchResults_defensive.2.1 (fun _ => some (.num 5)) "5" (.num 5)
      rfl (fun items hne => Json.noConfusion hne),
    (parseSearchResults_defensive.2.2.1 _ "X" _ rfl).trans (by decide),
    parseSearchResults_defensive.2.2.2.1 _ (by decide),
    parseSearchResults_defensive.2.2.2.2.1 _ "ok" rfl,
    parseSearchResults_defensive.2.2.2.2.2.1 (Json.num 7)
      (fun s hne => Option.noConfusion hne),
    parseSearchResults_defensive.2.2.2.2.2.2 (fun _ => some (.num 5))
      "[1]".data (by decide)⟩

theorem resultMapGet_eq_none_iff :
    ∀ (rs : List SearchResult) (k : String),
      resultMapGet rs k = none ↔ ∀ e ∈ rs, e.id ≠ k
  | [], k => by simp [resultMapGet]
  | r :: rest, k => by
    rw [resultMapGet]
    rcases hrest : resultMapGet rest k with _ | ⟨i, s⟩
    · show (if r.id = k then some (0, r.reason) else none) = none ↔ _
      by_cases hid : r.id = k
      · rw [if_pos hid]
        constructor
        · intro habs
          exact Option.noConfusion habs
        · intro hall
          exact absurd hid (hall r (by simp))
      · rw [if_neg hid]
        constructor
        · intro _ e he
          rcases List.mem_cons.mp he with rfl | he2
          · exact hid
          · exact (resultMapGet_eq_none_iff rest k).mp hrest e he2
        · intro _
          rfl
    · show some (i + 1, s) = none ↔ _
      constructor
      · intro habs
        exact Option.noConfusion habs
      · intro hall
        have hnone : resultMapGet rest k = none :=
          (resultMapGet_eq_none_iff rest k).mpr
            (fun e he => hall e (List.mem_cons_of_mem r he))
        rw [hnone] at hrest
        cases hrest

theorem resultMapGet_lastOccurrence :
    ∀ (rs : List SearchResult) (k : String) (i : Nat) (s : String),
      resultMapGet rs k = some (i, s) →
      rs.get? i = some ⟨k, s⟩ ∧
        (∀ j e, i < j → rs.get? j = some e → e.id ≠ k)
  | [], k, i, s, h => by simp [resultMapGet] at h
  | r :: rest, k, i, s, h => by
    rw [resultMapGet] at h
    rcases hrest : resultMapGet rest k with _ | ⟨i2, s2⟩ <;> rw [hrest] at h
    · by_cases hid : r.id = k
      · rw [if_pos hid] at h
        cases h
        refine ⟨by simp [← hid], ?_⟩
        intro j e hj hje
        obtain ⟨j2, rfl⟩ : ∃ j2, j = j2 + 1 := ⟨j - 1, by omega⟩
        have hj2 : rest.get? j2 = some e := by simpa using hje
        exact (resultMapGet_eq_none_iff rest k).mp hrest e
          (List.get?_mem hj2)
      · rw [if_neg hid] at h
        cases h
    · have hinj : (i2 + 1, s2) = (i, s) := Option.some.inj h
      have hieq : i2 + 1 = i := congrArg Prod.fst hinj
      have hseq : s2 = s := congrArg Prod.snd hinj
      subst hieq
      subst hseq
      obtain ⟨hget, hlater⟩ :=
        resultMapGet_lastOccurrence rest k i2 s2 hrest
      refine ⟨by simpa using hget, ?_⟩
      intro j e hj hje
      obtain ⟨j2, rfl⟩ : ∃ j2, j = j2 + 1 := ⟨j - 1, by omega⟩
      exact hlater j2 e (by omega) (by simpa using hje)

theorem resultMapGet_isSome_iff (rs : List SearchResult) (k : String) :
    (resultMapGet rs k).isSome = true ↔ k ∈ rs.map SearchResult.id := by
  constructor
  · intro h
    rcases hr : resultMapGet rs k with _ | ⟨i, s⟩
    · rw [hr] at h
      simp at h
    · have hget := (resultMapGet_lastOccurrence rs k i s hr).1
      have hmem : (⟨k, s⟩ : SearchResult) ∈ rs := List.get?_mem hget
      simpa using List.mem_map_of_mem SearchResult.id hmem
  · intro hmem
    rcases hr : resultMapGet rs k with _ | ⟨i, s⟩
    · obtain ⟨e, he, heq⟩ := List.mem_map.mp hmem
      exact absurd heq ((resultMapGet_eq_none_iff rs k).mp hr e he)
    · rfl

theorem resultMapGet_index_inj (rs : List SearchResult)
    (k1 k2 : String) (i : Nat) (s1 s2 : String)
    (h1 : resultMapGet rs k1 = some (i, s1))
    (h2 : resultMapGet rs k2 = some (i, s2)) : k1 = k2 := by
  have hg1 := (resultMapGet_lastOccurrence rs k1 i s1 h1).1
  have hg2 := (resultMapGet_lastOccurrence rs k2 i s2 h2).1
  rw [hg1] at hg2
  have h3 := Option.some.inj hg2
  exact congrArg SearchResult.id h3

theorem sortInsert_perm (key : Post → Nat) (p : Post) :
    ∀ l : List Post, (sortInsert key p l).Perm (p :: l)
  | [] => List.Perm.refl _
  | q :: l => by
    rw [sortInsert]
    by_cases h : key q < key p
    · rw [if_pos h]
      exact ((sortInsert_perm key p l).cons q).trans (List.Perm.swap p q l)
    · rw [if_neg h]

theorem mem_sortInsert (key : Post → Nat) (p x : Post) (l : List Post) :
    x ∈ sortInsert key p l ↔ x = p ∨ x ∈ l := by
  rw [(sortInsert_perm key p l).mem_iff]
  exact List.mem_cons

theorem sortByKey_perm (key : Post → Nat) :
    ∀ l : List Post, (sortByKey key l).Perm l
  | [] => List.Perm.refl _
  | p :: l =>
    ((sortInsert_perm key p (sortByKey key l)).trans
      ((sortByKey_perm key l).cons p))

theorem sortInsert_pairwise (key : Post → Nat) (p : Post) :
    ∀ l : List Post, l.Pairwise (fun a b => key a ≤ key b) →
      (sortInsert key p l).Pairwise (fun a b => key a ≤ key b)
  | [], _ => List.pairwise_singleton _ p
  | q :: l, h => by
    rw [List.pairwise_cons] at h
    obtain ⟨hq, hl⟩ := h
    rw [sortInsert]
    by_cases hlt : key q < key p
    · rw [if_pos hlt]
      rw [List.pairwise_cons]
      refine ⟨?_, sortInsert_pairwise key p l hl⟩
      intro x hx
      rcases (mem_sortInsert key p x l).mp hx with rfl | hx2
      · exact Nat.le_of_lt hlt
      · exact hq x hx2
    · rw [if_neg hlt]
      rw [List.pairwise_cons]
      refine ⟨?_, List.pairwise_cons.mpr ⟨hq, hl⟩⟩
      intro x hx
      rcases List.mem_cons.mp hx with rfl | hx2
      · exact Nat.le_of_not_lt hlt
      · exact Nat.le_trans (Nat.le_of_not_lt hlt) (hq x hx2)

theorem sortByKey_pairwise (key : Post → Nat) :
    ∀ l : List Post,
      (sortByKey key l).Pairwise (fun a b => key a ≤ key b)
  | [] => by simp [sortByKey]
  | p :: l => sortInsert_pairwise key p _ (sortByKey_pairwise key l)

theorem matchedPosts_map_post (posts : List Post) (rs : List SearchResult) :
    (matchedPosts posts rs).map AnnotatedPost.post =
      sortByKey (rankOf rs)
        (posts.filter (fun p => (resultMapGet rs p.pid).isSome)) := by
  unfold matchedPosts
  rw [List.map_map]
  have hcomp : (AnnotatedPost.post ∘ fun p =>
      (⟨p, annotatedReason rs p⟩ : AnnotatedPost)) = id := rfl
  rw [hcomp, List.map_id]

theorem matchedPosts_perm_filter (posts : List Post)
    (rs : List SearchResult) :
    ((matchedPosts posts rs).map AnnotatedPost.post).Perm
      (posts.filter (fun p => (resultMapGet rs p.pid).isSome)) := by
  rw [matchedPosts_map_post]
  exact sortByKey_perm _ _

theorem mem_matchedPosts (posts : List Post) (rs : List SearchResult)
    (x : AnnotatedPost) :
    x ∈ matchedPosts posts rs ↔
      x.post ∈ posts ∧ (resultMapGet rs x.post.pid).isSome = true ∧
        x.searchReason = annotatedReason rs x.post := by
  unfold matchedPosts
  rw [List.mem_map]
  constructor
  · rintro ⟨p, hp, rfl⟩
    have hp2 := ((sortByKey_perm (rankOf rs) _).mem_iff).mp hp
    have hp3 := List.mem_filter.mp hp2
    exact ⟨hp3.1, hp3.2, rfl⟩
  · rintro ⟨hmem, hsome, hreason⟩
    refine ⟨x.post, ?_, ?_⟩
    · exact ((sortByKey_perm (rankOf rs) _).mem_iff).mpr
        (List.mem_filter.mpr ⟨hmem, hsome⟩)
    · cases x with
      | mk p r =>
        simp at hreason ⊢
        exact hreason.symm

/-- C4 (amended): the search reconstruction. An empty candidate list
short-circuits with no external call and an empty result. For every parsed
result list rs: membership in the result map is exactly membership of the
id in the parsed array; the reconstructed posts are a permutation of the
candidates whose ids appear in the map, so the result set is a subset of
the candidate set and unmatched candidates are dropped, not appended; when
candidate ids are distinct the output is strictly ordered by each id's
mapped position in the parsed array; the mapped position of an id is the
position of its entry in the parsed array; and every output row is
annotated with its entry's parsed reason, except that an empty-string
reason is replaced by the generic placeholder (the attachment uses a JS
falsy-or default, which is what the counterexample forces). -/
theorem searchPosts_reconstruction :
    (∀ parse upstream query,
      searchPostsByAI parse upstream query [] = ([], []) ∧
      searchPipeline parse upstream query [] = ([], [])) ∧
    (∀ rs k,
      (resultMapGet rs k).isSome = true ↔ k ∈ rs.map SearchResult.id) ∧
    (∀ posts rs,
      ((matchedPosts posts rs).map AnnotatedPost.post).Perm
        (posts.filter (fun p => (resultMapGet rs p.pid).isSome))) ∧
    (∀ posts rs, (posts.map Post.pid).Nodup →
      (matchedPosts posts rs).Pairwise
        (fun a b => rankOf rs a.post < rankOf rs b.post)) ∧
    (∀ rs (p : Post) i s, resultMapGet rs p.pid = some (i, s) →
      rankOf rs p = i ∧ rs.get? i = some ⟨p.pid, s⟩) ∧
    (∀ posts rs x, x ∈ matchedPosts posts rs →
      x.post ∈ posts ∧
      ∃ i s, resultMapGet rs x.post.pid = some (i, s) ∧
        x.searchReason = (if s = "" then "Relevant to search" else s)) ∧
    (∀ posts rs (p : Post), p ∈ posts →
      p.pid ∉ rs.map SearchResult.id →
      ∀ x ∈ matchedPosts posts rs, x.post ≠ p) := by
  refine ⟨?_, resultMapGet_isSome_iff, matchedPosts_perm_filter,
    ?_, ?_, ?_, ?_⟩
  · intro parse upstream query
    exact ⟨rfl, rfl⟩
  · intro posts rs hnodup
    unfold matchedPosts
    rw [List.pairwise_map]
    have hle := sortByKey_pairwise (rankOf rs)
      (posts.filter (fun p => (resultMapGet rs p.pid).isSome))
    have hpidnd : (posts.filter
        (fun p => (resultMapGet rs p.pid).isSome)).Pairwise
        (fun a b => a.pid ≠ b.pid) :=
      (List.pairwise_map.mp hnodup).filter _
    have hkeynd : (posts.filter
        (fun p => (resultMapGet rs p.pid).isSome)).Pairwise
        (fun a b => rankOf rs a ≠ rankOf rs b) := by
      refine hpidnd.imp_of_mem ?_
      intro a b ha hb hne heq
      have hsa := (List.mem_filter.mp ha).2
      have hsb := (List.mem_filter.mp hb).2
      obtain ⟨⟨ia, sa⟩, hia⟩ := Option.isSome_iff_exists.mp hsa
      obtain ⟨⟨ib, sb⟩, hib⟩ := Option.isSome_iff_exists.mp hsb
      have hra : rankOf rs a = ia := by unfold rankOf; rw [hia]
      have hrb : rankOf rs b = ib := by unfold rankOf; rw [hib]
      rw [hra, hrb] at heq
      subst heq
      exact hne (resultMapGet_index_inj rs a.pid b.pid ia sa sb hia hib)
    have hmapnd : ((posts.filter
        (fun p => (resultMapGet rs p.pid).isSome)).map
          (rankOf rs)).Nodup :=
      List.pairwise_map.mpr hkeynd
    have hsortnd : ((sortByKey (rankOf rs)
        (posts.filter (fun p => (resultMapGet rs p.pid).isSome))).map
          (rankOf rs)).Nodup :=
      ((sortByKey_perm (rankOf rs) _).map (rankOf rs)).nodup_iff.mpr hmapnd
    have hsortne := List.pairwise_map.mp hsortnd
    exact (hle.and hsortne).imp
      (fun hab => Nat.lt_of_le_of_ne hab.1 hab.2)
  · intro rs p i s h
    refine ⟨by unfold rankOf; rw [h], ?_⟩
    exact (resultMapGet_lastOccurrence rs p.pid i s h).1
  · intro posts rs x hx
    obtain ⟨hmem, hsome, hreason⟩ := (mem_matchedPosts posts rs x).mp hx
    obtain ⟨⟨i, s⟩, hi⟩ := Option.isSome_iff_exists.mp hsome
    refine ⟨hmem, i, s, hi, ?_⟩
    rw [hreason]
    unfold annotatedReason
    rw [hi]
  · intro posts rs p hp hnot x hx heq
    obtain ⟨_, hsome, _⟩ := (mem_matchedPosts posts rs x).mp hx
    rw [heq] at hsome
    exact hnot ((resultMapGet_isSome_iff rs p.pid).mp hsome)

/-- A closed instance of the C4 theorem at the round-trip example of the
specification: candidates p1, p2, p3 and parsed reply [p3, p1] give back
[p3, p1] in that order, annotated, with p2 absent. -/
theorem searchPosts_reconstruction_witness :
    matchedPosts [⟨"p1", "a"⟩, ⟨"p2", "b"⟩, ⟨"p3", "c"⟩]
        [⟨"p3", "x"⟩, ⟨"p1", "y"⟩] =
      [⟨⟨"p3", "c"⟩, "x"⟩, ⟨⟨"p1", "a"⟩, "y"⟩] ∧
    searchPostsByAI (fun _ => none) (fun _ => none) "q" [] = ([], []) ∧
    ((matchedPosts [⟨"p1", "a"⟩, ⟨"p2", "b"⟩, ⟨"p3", "c"⟩]
        [⟨"p3", "x"⟩, ⟨"p1", "y"⟩]).map AnnotatedPost.post).Perm
      ([⟨"p1", "a"⟩, ⟨"p2", "b"⟩, ⟨"p3", "c"⟩].filter
        (fun p => (resultMapGet [⟨"p3", "x"⟩, ⟨"p1", "y"⟩] p.pid).isSome)) ∧
    (matchedPosts [⟨"p1", "a"⟩, ⟨"p2", "b"⟩, ⟨"p3", "c"⟩]
        [⟨"p3", "x"⟩, ⟨"p1", "y"⟩]).Pairwise
      (fun a b => rankOf [⟨"p3", "x"⟩, ⟨"p1", "y"⟩] a.post <
        rankOf [⟨"p3", "x"⟩, ⟨"p1", "y"⟩] b.post) ∧
    (∀ x ∈ matchedPosts [⟨"p1", "a"⟩, ⟨"p2", "b"⟩, ⟨"p3", "c"⟩]
        [⟨"p3", "x"⟩, ⟨"p1", "y"⟩],
      x.post ≠ ⟨"p2", "b"⟩) :=
  ⟨by decide,
    (searchPosts_reconstruction.1 (fun _ => none) (fun _ => none) "q").1,
    searchPosts_reconstruction.2.2.1
      [⟨"p1", "a"⟩, ⟨"p2", "b"⟩, ⟨"p3", "c"⟩] [⟨"p3", "x"⟩, ⟨"p1", "y"⟩],
    searchPosts_reconstruction.2.2.2.1
      [⟨"p1", "a"⟩, ⟨"p2", "b"⟩, ⟨"p3", "c"⟩] [⟨"p3", "x"⟩, ⟨"p1", "y"⟩]
      (by decide),
    searchPosts_reconstruction.2.2.2.2.2.2
      [⟨"p1", "a"⟩, ⟨"p2", "b"⟩, ⟨"p3", "c"⟩] [⟨"p3", "x"⟩, ⟨"p1", "y"⟩]
      ⟨"p2", "b"⟩ (by decide) (by decide)⟩

/-- C4 counterexample to the claim as stated: an entry whose parsed reason
is the empty string does not annotate its candidate with that reason; the
falsy-or attachment replaces it with the generic placeholder. -/
theorem searchPosts_reconstruction_counterexample :
    matchedPosts [⟨"p1", "t"⟩] [⟨"p1", ""⟩] =
      [⟨⟨"p1", "t"⟩, "Relevant to search"⟩] ∧
    resultMapGet [⟨"p1", ""⟩] "p1" = some (0, "") ∧
    ("Relevant to search" : String) ≠ "" := by
  refine ⟨by decide, by decide, by decide⟩

/-- C10 (amended): duplicate-id tolerance of the reconstruction. When the
parsed array mentions the id of a candidate more than once, the candidate
still appears exactly once in the output; its mapped position is the
position of the LAST occurrence of the id (no later entry carries the id),
and the attached reason is the last occurrence's reason unless that reason
is the empty string, in which case the generic placeholder is attached
(forced by the counterexample: the attachment uses a JS falsy-or
default). -/
theorem searchPosts_duplicateIds :
    ∀ (posts : List Post) (rs : List SearchResult) (c : Post),
      (posts.map Post.pid).Nodup → c ∈ posts →
      1 < (rs.map SearchResult.id).count c.pid →
      (((matchedPosts posts rs).map AnnotatedPost.post).count c = 1) ∧
      ∃ i s, resultMapGet rs c.pid = some (i, s) ∧
        rankOf rs c = i ∧
        rs.get? i = some ⟨c.pid, s⟩ ∧
        (∀ j e, i < j → rs.get? j = some e → e.id ≠ c.pid) ∧
        (∀ x ∈ matchedPosts posts rs, x.post = c →
          x.searchReason = (if s = "" then "Relevant to search" else s)) := by
  intro posts rs c hnodup hc hcount
  have hmemid : c.pid ∈ rs.map SearchResult.id :=
    List.count_pos_iff.mp (by omega)
  have hsome := (resultMapGet_isSome_iff rs c.pid).mpr hmemid
  obtain ⟨⟨i, s⟩, hi⟩ := Option.isSome_iff_exists.mp hsome
  obtain ⟨hget, hlater⟩ := resultMapGet_lastOccurrence rs c.pid i s hi
  refine ⟨?_, i, s, hi, by unfold rankOf; rw [hi], hget, hlater, ?_⟩
  · rw [(matchedPosts_perm_filter posts rs).count_eq c]
    have hfnd : (posts.filter
        (fun p => (resultMapGet rs p.pid).isSome)).Nodup :=
      (List.Nodup.of_map Post.pid hnodup).filter _
    have hcf : c ∈ posts.filter
        (fun p => (resultMapGet rs p.pid).isSome) :=
      List.mem_filter.mpr ⟨hc, hsome⟩
    exact List.count_eq_one_of_mem hfnd hcf
  · intro x hx heq
    obtain ⟨_, _, hreason⟩ := (mem_matchedPosts posts rs x).mp hx
    rw [hreason, heq]
    unfold annotatedReason
    rw [hi]

/-- A closed instance of the C10 theorem, discharging its hypotheses at a
concrete candidate list and a parsed array with a duplicated id. -/
theorem searchPosts_duplicateIds_witness :
    (((matchedPosts [⟨"p1", "t"⟩, ⟨"p2", "u"⟩]
        [⟨"p1", "a"⟩, ⟨"p2", "z"⟩, ⟨"p1", "b"⟩]).map
          AnnotatedPost.post).count ⟨"p1", "t"⟩ = 1) ∧
    ∃ i s, resultMapGet [⟨"p1", "a"⟩, ⟨"p2", "z"⟩, ⟨"p1", "b"⟩] "p1" =
        some (i, s) ∧
      rankOf [⟨"p1", "a"⟩, ⟨"p2", "z"⟩, ⟨"p1", "b"⟩] ⟨"p1", "t"⟩ = i ∧
      [(⟨"p1", "a"⟩ : SearchResult), ⟨"p2", "z"⟩, ⟨"p1", "b"⟩].get? i =
        some ⟨"p1", s⟩ ∧
      (∀ j e, i < j →
        [(⟨"p1", "a"⟩ : SearchResult), ⟨"p2", "z"⟩, ⟨"p1", "b"⟩].get? j =
          some e → e.id ≠ "p1") ∧
      (∀ x ∈ matchedPosts [⟨"p1", "t"⟩, ⟨"p2", "u"⟩]
          [⟨"p1", "a"⟩, ⟨"p2", "z"⟩, ⟨"p1", "b"⟩],
        x.post = ⟨"p1", "t"⟩ →
        x.searchReason = (if s = "" then "Relevant to search" else s)) :=
  searchPosts_duplicateIds [⟨"p1", "t"⟩, ⟨"p2", "u"⟩]
    [⟨"p1", "a"⟩, ⟨"p2", "z"⟩, ⟨"p1", "b"⟩] ⟨"p1", "t"⟩
    (by decide) (by decide) (by decide)

/-- C10 counterexample to the claim as stated: when the last occurrence of
a duplicated id carries the empty-string reason, the candidate is annotated
with the generic placeholder, not with the last occurrence's reason. -/
theorem searchPosts_duplicateIds_counterexample :
    matchedPosts [⟨"p1", "t"⟩] [⟨"p1", "a"⟩, ⟨"p1", ""⟩] =
      [⟨⟨"p1", "t"⟩, "Relevant to search"⟩] ∧
    resultMapGet [⟨"p1", "a"⟩, ⟨"p1", ""⟩] "p1" = some (1, "") ∧
    ("Relevant to search" : String) ≠ "" := by
  refine ⟨by decide, by decide, by decide⟩

end ReBook
